import Mathlib

/-!
Shallow embedding of the paradl download engine's ChunkManager and its
collaborators (ControlFile, SegmentWriter world, progress computation),
translated from the TypeScript source, together with proofs checking the
natural-language specification's claims against it.

JavaScript numbers are modelled as `Int` where values can be arbitrary
(byte counters coming from callers or from a control file on disk) and as
`Nat` where the source only ever produces non-negative integers (byte
offsets of freshly created segments, sizes, indices).  Fractional
computations (`getProgress`) are modelled over `ℚ`.
-/

namespace Paradl

/-- Segment status, from `src/types` (`"pending" | "downloading" | "completed" | "failed"`). -/
inductive SegStatus where
  | pending
  | downloading
  | completed
  | failed
deriving DecidableEq, Repr

/-- A byte-range segment, from the `Segment` interface in `src/types`.
`downloadedBytes` is `Int` because callers may pass arbitrary numbers. -/
structure Segment where
  index : Nat
  startByte : Nat
  endByte : Nat
  downloadedBytes : Int
  status : SegStatus
deriving DecidableEq, Repr

/-- The JS expression `segment.endByte - segment.startByte + 1` evaluated in
signed arithmetic, as `loadResumeData` and `markSegmentCompleted` compute it. -/
def Segment.fullSize (s : Segment) : Int :=
  (s.endByte : Int) - (s.startByte : Int) + 1

/-- The width of a segment as a natural number (used to state size claims). -/
def Segment.byteLen (s : Segment) : Nat :=
  s.endByte - s.startByte + 1

/-- The `while (startByte < totalSize)` loop of `ChunkManager.createSegments`,
with an explicit fuel bound (the loop advances `startByte` by at least one per
iteration whenever the width is positive, so `totalSize` iterations suffice). -/
def buildSegments : Nat → Nat → Nat → Nat → Nat → List Segment
  | 0, _, _, _, _ => []
  | fuel + 1, width, totalSize, startByte, index =>
    if startByte < totalSize then
      { index := index, startByte := startByte,
        endByte := min (startByte + width - 1) (totalSize - 1),
        downloadedBytes := 0, status := .pending } ::
        buildSegments fuel width totalSize (min (startByte + width - 1) (totalSize - 1) + 1)
          (index + 1)
    else []

/-- The `targetSegments` computation of `ChunkManager.createSegments`:
`max(1, min(maxSplits, maxSegmentsBySize))`, where the constructor already
clamped `maxSplits` with `Math.max(1, options.maxSplits)` and
`maxSegmentsBySize = max(1, Math.floor(totalSize / segmentSize))`. -/
def targetSegmentsOf (totalSize segmentSize maxSplits : Nat) : Nat :=
  max 1 (min (max 1 maxSplits) (max 1 (totalSize / segmentSize)))

/-- The per-segment nominal width `Math.ceil(totalSize / targetSegments)`. -/
def segWidthOf (totalSize segmentSize maxSplits : Nat) : Nat :=
  (totalSize + targetSegmentsOf totalSize segmentSize maxSplits - 1) /
    targetSegmentsOf totalSize segmentSize maxSplits

/-- `ChunkManager.createSegments` (src/unnamed/part_000, lines 158-183). -/
def createSegments (totalSize segmentSize maxSplits : Nat) : List Segment :=
  buildSegments totalSize (segWidthOf totalSize segmentSize maxSplits) totalSize 0 0

/-- The configuration a ChunkManager is constructed with
(`ChunkManagerOptions`, minus the writer and control-file handles, which are
modelled as explicit world state below). -/
structure CMConfig where
  segmentSize : Nat
  maxSplits : Nat
  totalSize : Nat
  outputPath : String
  resumeDownloads : Bool
  alwaysResume : Bool
  urls : List String
deriving DecidableEq, Repr

/-- The mutable state of a ChunkManager: its `segments` array and the
task-wide `downloadedBytes` counter. -/
structure CMState where
  segments : List Segment
  downloadedBytes : Int
deriving DecidableEq, Repr

/-- The persisted control record (`ControlFileData` in `src/types`).
`downloadedBytes` is optional in the source (`downloadedBytes?: number`). -/
structure ControlFileData where
  version : String
  urls : List String
  filename : String
  outputPath : String
  totalSize : Nat
  downloadedBytes : Option Int
  segments : List Segment
  createdAt : String
  lastModified : String
deriving DecidableEq, Repr

/-- JS `path.split("/").pop() || ""` used for the control record's filename. -/
def basename (path : String) : String :=
  (path.splitOn ("/")).getLast?.getD ("")

/-- The record written by `ChunkManager.saveProgress` (lines 304-317); the
source stores no task-wide `downloadedBytes` field.  `now` stands for the
wall-clock timestamp string. -/
def saveProgressRecord (cfg : CMConfig) (st : CMState) (now : String) : ControlFileData :=
  { version := "1.0"
    urls := cfg.urls
    filename := basename cfg.outputPath
    outputPath := cfg.outputPath
    totalSize := cfg.totalSize
    downloadedBytes := none
    segments := st.segments
    createdAt := now
    lastModified := now }

/-- `ChunkManager.saveProgress`: writes the record only when
`resumeDownloads` is enabled (`none` models "nothing written"). -/
def saveProgress (cfg : CMConfig) (st : CMState) (now : String) : Option ControlFileData :=
  if cfg.resumeDownloads then some (saveProgressRecord cfg st now) else none

/-- JS array indexing `this.segments[index]`: `undefined` (here `none`) for a
negative or out-of-range index. -/
def segAt (segs : List Segment) (index : Int) : Option Segment :=
  if 0 ≤ index then segs.get? index.toNat else none

/-- `ChunkManager.markSegmentDownloading` (lines 214-217). -/
def markSegmentDownloading (st : CMState) (index : Int) : CMState :=
  match segAt st.segments index with
  | none => st
  | some segment =>
      { st with segments := st.segments.set index.toNat { segment with status := .downloading } }

/-- `ChunkManager.markSegmentFailed` (lines 253-256). -/
def markSegmentFailed (st : CMState) (index : Int) : CMState :=
  match segAt st.segments index with
  | none => st
  | some segment =>
      { st with segments := st.segments.set index.toNat { segment with status := .failed } }

/-- `ChunkManager.updateSegmentProgress` (lines 222-230): sets the segment's
`downloadedBytes` to the supplied cumulative value and applies the delta to
the task-wide counter. -/
def updateSegmentProgress (st : CMState) (index : Int) (bytes : Int) : CMState :=
  match segAt st.segments index with
  | none => st
  | some segment =>
      let delta := bytes - segment.downloadedBytes
      { segments := st.segments.set index.toNat { segment with downloadedBytes := bytes }
        downloadedBytes := st.downloadedBytes + delta }

/-- The state mutation of `ChunkManager.markSegmentCompleted` (lines 235-245):
set the status, bring `downloadedBytes` up to the full size, fold the residual
delta into the task total. -/
def markSegmentCompletedState (st : CMState) (index : Int) : CMState :=
  match segAt st.segments index with
  | none => st
  | some segment =>
      let fullSize := segment.fullSize
      let delta := fullSize - segment.downloadedBytes
      { segments := st.segments.set index.toNat
          { segment with status := .completed, downloadedBytes := fullSize }
        downloadedBytes := if delta ≠ 0 then st.downloadedBytes + delta else st.downloadedBytes }

/-- `ChunkManager.markSegmentCompleted` including its unconditional trailing
`await this.saveProgress()` (line 247): the second component is what that save
writes. -/
def markSegmentCompleted (cfg : CMConfig) (st : CMState) (index : Int) (now : String) :
    CMState × Option ControlFileData :=
  let next := markSegmentCompletedState st index
  (next, saveProgress cfg next now)

/-- Sum of the per-segment `downloadedBytes` counters. -/
def sumDlb (segs : List Segment) : Int :=
  (segs.map (·.downloadedBytes)).sum

/-- The fresh state right after `createSegments` ran (`segments` rebuilt,
task counter reset to 0). -/
def freshState (cfg : CMConfig) : CMState :=
  { segments := createSegments cfg.totalSize cfg.segmentSize cfg.maxSplits
    downloadedBytes := 0 }

/-- Errors thrown by `ChunkManager.initialize` and its helpers, one per
`throw` site: line 63 (control file missing), line 98 (control data invalid),
line 148 (saved segment span does not match the current size). -/
inductive CMError where
  | resumeRequired
  | resumeInvalid
  | resumeMismatch
deriving DecidableEq, Repr

/-- `ChunkManager.loadResumeData` followed by `validateSegmentSizes`
(lines 89-156), as a pure function of the parsed record. -/
def loadResumeData (cfg : CMConfig) (data : ControlFileData) : Except CMError CMState :=
  if data.segments.isEmpty then
    if cfg.alwaysResume then .error .resumeInvalid
    else .ok (freshState cfg)
  else
    let segs := data.segments.map (fun segment =>
      { segment with
          downloadedBytes := max 0 (min segment.downloadedBytes segment.fullSize)
          status :=
            if segment.fullSize ≤ max 0 (min segment.downloadedBytes segment.fullSize)
            then SegStatus.completed else SegStatus.pending })
    let resumedBytes := sumDlb segs
    let downloaded : Int :=
      match data.downloadedBytes with
      | some d => max 0 (min d (cfg.totalSize : Int))
      | none => resumedBytes
    let expectedTotalSize := (data.segments.map Segment.fullSize).sum
    if expectedTotalSize = (cfg.totalSize : Int) then
      .ok { segments := segs, downloadedBytes := downloaded }
    else if cfg.alwaysResume then .error .resumeMismatch
    else .ok (freshState cfg)

/-- Observable side effects of `ChunkManager.initialize`, in program order. -/
inductive Effect where
  | mkdirOut
  | openWriter
  | saveControl
deriving DecidableEq, Repr

/-- The file-system facts `ChunkManager.initialize` probes: whether the output
file exists and its size, whether the control file exists, and what
`controlFile.load()` returns (`none` on a missing or unparsable file). -/
structure InitEnv where
  fileExists : Bool
  fileSize : Nat
  controlExists : Bool
  controlLoad : Option ControlFileData
deriving DecidableEq, Repr

/-- `ChunkManager.initialize` (lines 46-84): the effects it performs in order
and its outcome. -/
def cmInit (cfg : CMConfig) (env : InitEnv) : List Effect × Except CMError CMState :=
  let controlFileExists := if cfg.resumeDownloads then env.controlExists else false
  if cfg.resumeDownloads ∧ cfg.alwaysResume ∧ env.fileExists ∧ 0 < env.fileSize ∧
      ¬controlFileExists then
    ([Effect.mkdirOut], .error .resumeRequired)
  else
    let resumeData := if cfg.resumeDownloads then env.controlLoad else none
    let afterLoad : Except CMError CMState :=
      match resumeData with
      | some data => loadResumeData cfg data
      | none => .ok (freshState cfg)
    match afterLoad with
    | .error e => ([Effect.mkdirOut, Effect.openWriter], .error e)
    | .ok st =>
        if cfg.resumeDownloads then
          ([Effect.mkdirOut, Effect.openWriter, Effect.saveControl], .ok st)
        else
          ([Effect.mkdirOut, Effect.openWriter], .ok st)

/-- The progress snapshot (`DownloadProgress` in `src/types`), with the
fractional fields over `ℚ`. -/
structure ProgressSnapshot where
  totalBytes : Int
  downloadedBytes : Int
  percent : ℚ
  speed : ℚ
  eta : ℚ
deriving DecidableEq, Repr

/-- `ChunkManager.getProgress` (lines 275-290), with the elapsed seconds as a
parameter in place of the wall clock. -/
def getProgress (totalSize downloadedBytes : Int) (elapsedSeconds : ℚ) : ProgressSnapshot :=
  let clampedDownloaded := min downloadedBytes totalSize
  let speed : ℚ := if 0 < elapsedSeconds then (clampedDownloaded : ℚ) / elapsedSeconds else 0
  let remainingBytes : Int := max 0 (totalSize - clampedDownloaded)
  let eta : ℚ := if 0 < speed then (remainingBytes : ℚ) / speed else 0
  let percent : ℚ :=
    if 0 < totalSize then ((clampedDownloaded : ℚ) / (totalSize : ℚ)) * 100 else 0
  { totalBytes := totalSize
    downloadedBytes := clampedDownloaded
    percent := min percent 100
    speed := speed
    eta := eta }

/-- The bits of the file system `ChunkManager.cleanup` touches. -/
structure FsWorld where
  writerOpen : Bool
  controlExists : Bool
deriving DecidableEq, Repr

/-- `ChunkManager.cleanup` (lines 322-326): close the writer; delete the
control file when `success && resumeDownloads`.  The second component records
whether the delete was performed. -/
def cleanup (resumeDownloads success : Bool) (w : FsWorld) : FsWorld × Bool :=
  let deleted := success && resumeDownloads
  ({ writerOpen := false
     controlExists := if deleted then false else w.controlExists }, deleted)

/-- Decides that a segment list tiles `[start, total - 1]` contiguously in
order (used to state the partition hypotheses of the resume round-trip claim). -/
def tilesFrom : List Segment → Nat → Nat → Bool
  | [], start, total => start == total
  | seg :: rest, start, total =>
      (seg.startByte == start) && decide (start ≤ seg.endByte) &&
        decide (seg.endByte < total) && tilesFrom rest (seg.endByte + 1) total

/-! Concrete sample inputs used to instantiate the claim theorems. -/

/-- Sample segment for exercising the progress-update operations. -/
def segU : Segment :=
  { index := 0, startByte := 0, endByte := 9, downloadedBytes := 3, status := .downloading }

/-- Sample one-segment state whose counter matches its segment sum. -/
def stU : CMState := { segments := [segU], downloadedBytes := 3 }

/-- Sample configuration for the resume round-trip. -/
def cfgR : CMConfig :=
  { segmentSize := 4, maxSplits := 2, totalSize := 10, outputPath := "dir/file.bin",
    resumeDownloads := true, alwaysResume := false, urls := ["http://a/file.bin"] }

/-- Sample mid-download state partitioning [0, 9] into [0,3] and [4,9]. -/
def stR : CMState :=
  { segments :=
      [{ index := 0, startByte := 0, endByte := 3, downloadedBytes := 4, status := .downloading },
       { index := 1, startByte := 4, endByte := 9, downloadedBytes := 2, status := .downloading }]
    downloadedBytes := 6 }

/-- Sample configuration with strict resume enabled. -/
def cfgS : CMConfig :=
  { segmentSize := 4096, maxSplits := 5, totalSize := 100, outputPath := "dir/out.bin",
    resumeDownloads := true, alwaysResume := true, urls := ["http://a/out.bin"] }

/-- Sample environment: the output file exists with 100 bytes, no control file. -/
def envS : InitEnv :=
  { fileExists := true, fileSize := 100, controlExists := false, controlLoad := none }

/-- Sample configuration for the version-field check. -/
def cfgV : CMConfig :=
  { segmentSize := 1, maxSplits := 2, totalSize := 10, outputPath := "dir/v.bin",
    resumeDownloads := true, alwaysResume := false, urls := ["http://a/v.bin"] }

/-- Sample on-disk control record carrying version "2.0" and one valid
segment spanning [0, 9] with 4 bytes downloaded. -/
def recV : ControlFileData :=
  { version := "2.0", urls := ["http://a/v.bin"], filename := "v.bin",
    outputPath := "dir/v.bin", totalSize := 10, downloadedBytes := none,
    segments :=
      [{ index := 0, startByte := 0, endByte := 9, downloadedBytes := 4,
         status := .downloading }]
    createdAt := "", lastModified := "" }

/-- Sample environment whose control file parses to `recV`. -/
def envV : InitEnv :=
  { fileExists := true, fileSize := 10, controlExists := true, controlLoad := some recV }

/-- Sample configuration for the out-of-range operations. -/
def cfgO : CMConfig :=
  { segmentSize := 4, maxSplits := 2, totalSize := 10, outputPath := "dir/o.bin",
    resumeDownloads := true, alwaysResume := false, urls := ["http://a/o.bin"] }

/-- Sample one-segment state for the out-of-range operations. -/
def stO : CMState :=
  { segments :=
      [{ index := 0, startByte := 0, endByte := 9, downloadedBytes := 5, status := .downloading }]
    downloadedBytes := 5 }

/-! Helper lemmas shared by the claim theorems. -/

theorem targetSegmentsOf_pos (t s m : Nat) : 0 < targetSegmentsOf t s m :=
  Nat.lt_of_lt_of_le Nat.one_pos (le_max_left 1 _)

theorem segWidthOf_pos (t s m : Nat) (ht : 1 ≤ t) : 0 < segWidthOf t s m := by
  have hg := targetSegmentsOf_pos t s m
  rw [segWidthOf]
  exact Nat.div_pos (by omega) hg

theorem buildSegments_stop (fuel width totalSize startByte index : Nat)
    (h : totalSize ≤ startByte) :
    buildSegments fuel width totalSize startByte index = [] := by
  cases fuel with
  | zero => rfl
  | succ fuel => rw [buildSegments, if_neg (by omega)]

/-- Closed form of the `createSegments` loop: with positive width and enough
fuel it emits `⌈(totalSize - startByte) / width⌉` segments of nominal width
`width`, the last clamped to `totalSize - 1`. -/
theorem buildSegments_closed (width : Nat) (hw : 0 < width) :
    ∀ fuel totalSize startByte index : Nat, totalSize - startByte ≤ fuel →
      buildSegments fuel width totalSize startByte index =
        (List.range ((totalSize - startByte + width - 1) / width)).map (fun k =>
          { index := index + k, startByte := startByte + k * width,
            endByte := min (startByte + k * width + width - 1) (totalSize - 1),
            downloadedBytes := 0, status := .pending }) := by
  intro fuel
  induction fuel with
  | zero =>
      intro totalSize startByte index h
      have hdiv : (totalSize - startByte + width - 1) / width = 0 :=
        Nat.div_eq_of_lt (by omega)
      rw [hdiv]
      rfl
  | succ fuel ih =>
      intro totalSize startByte index h
      by_cases hlt : startByte < totalSize
      · rw [buildSegments, if_pos hlt]
        by_cases hsw : startByte + width < totalSize
        · have hmin : min (startByte + width - 1) (totalSize - 1) + 1 = startByte + width := by
            omega
          rw [hmin, ih totalSize (startByte + width) (index + 1) (by omega)]
          have hn : (totalSize - startByte + width - 1) / width =
              (totalSize - (startByte + width) + width - 1) / width + 1 := by
            have e : totalSize - startByte + width - 1 =
                (totalSize - (startByte + width) + width - 1) + width := by omega
            rw [e, Nat.add_div_right _ hw]
          rw [hn, List.range_succ_eq_map, List.map_cons, List.map_map]
          congr 1
          · simp
          · apply List.map_congr_left
            intro k _
            simp only [Function.comp_apply, Nat.succ_mul, Nat.succ_eq_add_one]
            generalize k * width = K
            simp only [Segment.mk.injEq]
            refine ⟨by omega, by omega, by omega, trivial, trivial⟩
        · have hmin : min (startByte + width - 1) (totalSize - 1) + 1 = totalSize := by omega
          rw [hmin, buildSegments_stop fuel width totalSize totalSize (index + 1) (le_refl _)]
          have hn : (totalSize - startByte + width - 1) / width = 1 := by
            have e : totalSize - startByte + width - 1 = (totalSize - startByte - 1) + width := by
              omega
            rw [e, Nat.add_div_right _ hw, Nat.div_eq_of_lt (by omega)]
          have hr1 : List.range 1 = [0] := rfl
          rw [hn, hr1]
          simp
      · rw [buildSegments, if_neg hlt]
        have hdiv : (totalSize - startByte + width - 1) / width = 0 := by
          have e : totalSize - startByte = 0 := by omega
          rw [e]
          exact Nat.div_eq_of_lt (by omega)
        rw [hdiv]
        rfl

/-- Closed form of `createSegments` for a positive total size. -/
theorem createSegments_closed (t s m : Nat) (ht : 1 ≤ t) :
    createSegments t s m =
      (List.range ((t + segWidthOf t s m - 1) / segWidthOf t s m)).map (fun k =>
        { index := k, startByte := k * segWidthOf t s m,
          endByte := min (k * segWidthOf t s m + segWidthOf t s m - 1) (t - 1),
          downloadedBytes := 0, status := .pending }) := by
  have hw : 0 < segWidthOf t s m := segWidthOf_pos t s m ht
  rw [createSegments, buildSegments_closed (segWidthOf t s m) hw t t 0 0 (by omega)]
  simp

theorem createSegments_length (t s m : Nat) (ht : 1 ≤ t) :
    (createSegments t s m).length = (t + segWidthOf t s m - 1) / segWidthOf t s m := by
  rw [createSegments_closed t s m ht]
  simp

theorem createSegments_get (t s m : Nat) (ht : 1 ≤ t) (i : Nat)
    (hi : i < (createSegments t s m).length) :
    (createSegments t s m).get ⟨i, hi⟩ =
      { index := i, startByte := i * segWidthOf t s m,
        endByte := min (i * segWidthOf t s m + segWidthOf t s m - 1) (t - 1),
        downloadedBytes := 0, status := .pending } := by
  have hcl := createSegments_closed t s m ht
  have hi' : i < (t + segWidthOf t s m - 1) / segWidthOf t s m := by
    rw [← createSegments_length t s m ht]
    exact hi
  have hq : (createSegments t s m)[i]? =
      some { index := i, startByte := i * segWidthOf t s m,
             endByte := min (i * segWidthOf t s m + segWidthOf t s m - 1) (t - 1),
             downloadedBytes := 0, status := .pending } := by
    rw [hcl]
    simp [List.getElem?_map, List.getElem?_range, hi']
  have hg : (createSegments t s m)[i]? = some ((createSegments t s m).get ⟨i, hi⟩) := by
    rw [List.get_eq_getElem]
    exact List.getElem?_eq_getElem hi
  rw [hg] at hq
  exact Option.some.inj hq

/-- C1: for every totalSize ≥ 1, segmentSize ≥ 1 and maxSplits ≥ 1, fresh
segmentation produces a segment list with ascending indices 0,1,2,…, whose
ranges are pairwise disjoint, contiguous, and together cover
[0, totalSize − 1] exactly; every segment except possibly the last has width
`segWidthOf` (the ceiling of totalSize over the target segment count), the
last segment's endByte is clamped to totalSize − 1, and every segment starts
with downloadedBytes = 0 and status pending. -/
theorem C1_createSegments_layout (t s m : Nat) (ht : 1 ≤ t) (hs : 1 ≤ s) (hm : 1 ≤ m) :
    createSegments t s m ≠ [] ∧
    (∀ i (hi : i < (createSegments t s m).length),
      ((createSegments t s m).get ⟨i, hi⟩).index = i ∧
      ((createSegments t s m).get ⟨i, hi⟩).downloadedBytes = 0 ∧
      ((createSegments t s m).get ⟨i, hi⟩).status = SegStatus.pending ∧
      ((createSegments t s m).get ⟨i, hi⟩).startByte ≤
        ((createSegments t s m).get ⟨i, hi⟩).endByte ∧
      ((createSegments t s m).get ⟨i, hi⟩).endByte ≤ t - 1) ∧
    (∀ i (hi : i < (createSegments t s m).length), i = 0 →
      ((createSegments t s m).get ⟨i, hi⟩).startByte = 0) ∧
    (∀ i (hi : i + 1 < (createSegments t s m).length),
      ((createSegments t s m).get ⟨i + 1, hi⟩).startByte =
        ((createSegments t s m).get ⟨i, Nat.lt_of_succ_lt hi⟩).endByte + 1) ∧
    (∀ i (hi : i < (createSegments t s m).length), i + 1 = (createSegments t s m).length →
      ((createSegments t s m).get ⟨i, hi⟩).endByte = t - 1) ∧
    (∀ i (hi : i + 1 < (createSegments t s m).length),
      ((createSegments t s m).get ⟨i, Nat.lt_of_succ_lt hi⟩).byteLen = segWidthOf t s m) ∧
    (∀ i j (hi : i < (createSegments t s m).length) (hj : j < (createSegments t s m).length),
      i < j →
      ((createSegments t s m).get ⟨i, hi⟩).endByte <
        ((createSegments t s m).get ⟨j, hj⟩).startByte) ∧
    (∀ b, b < t → ∃ i, ∃ hi : i < (createSegments t s m).length,
      ((createSegments t s m).get ⟨i, hi⟩).startByte ≤ b ∧
      b ≤ ((createSegments t s m).get ⟨i, hi⟩).endByte) := by
  have hw : 0 < segWidthOf t s m := segWidthOf_pos t s m ht
  set w := segWidthOf t s m with hwdef
  have hlen : (createSegments t s m).length = (t + w - 1) / w := createSegments_length t s m ht
  set n := (t + w - 1) / w with hndef
  have hget := createSegments_get t s m ht
  have hA4 : n * w ≤ t + w - 1 := by rw [hndef]; exact Nat.div_mul_le_self _ _
  have hA3 : t ≤ n * w := by
    have hdm := Nat.div_add_mod (t + w - 1) w
    have hmod : (t + w - 1) % w < w := Nat.mod_lt _ hw
    rw [hndef, mul_comm]
    generalize hq : w * ((t + w - 1) / w) = Q at hdm ⊢
    omega
  have hA1 : ∀ i, i < n → i * w ≤ t - 1 := by
    intro i hi
    have h1 : (i + 1) * w ≤ n * w := Nat.mul_le_mul_right w (by omega)
    have h2 := hA4
    have h3 : (i + 1) * w = i * w + w := by ring
    rw [h3] at h1
    generalize i * w = K at h1 ⊢
    generalize hq : n * w = Q at h1 h2
    omega
  have hA2 : ∀ i, i + 1 < n → i * w + w ≤ t - 1 := by
    intro i hi
    have h1 : (i + 2) * w ≤ n * w := Nat.mul_le_mul_right w (by omega)
    have h2 := hA4
    have h3 : (i + 2) * w = i * w + w + w := by ring
    rw [h3] at h1
    generalize i * w = K at h1 ⊢
    generalize hq : n * w = Q at h1 h2
    omega
  have hn1 : 1 ≤ n := by
    rw [hndef]
    exact Nat.div_pos (by omega) hw
  refine ⟨?_, ?_, ?_, ?_, ?_, ?_, ?_, ?_⟩
  · intro hnil
    rw [hnil] at hlen
    simp at hlen
    omega
  · intro i hi
    have hin : i < n := by rw [← hlen]; exact hi
    rw [hget i hi]
    refine ⟨rfl, rfl, rfl, ?_, ?_⟩
    · have h1 := hA1 i hin
      show i * w ≤ min (i * w + w - 1) (t - 1)
      generalize i * w = K at h1 ⊢
      omega
    · show min (i * w + w - 1) (t - 1) ≤ t - 1
      omega
  · intro i hi h0
    subst h0
    rw [hget 0 hi]
    show 0 * w = 0
    simp
  · intro i hi
    have hin : i + 1 < n := by rw [← hlen]; exact hi
    rw [hget (i + 1) hi, hget i (Nat.lt_of_succ_lt hi)]
    show (i + 1) * w = min (i * w + w - 1) (t - 1) + 1
    have h2 := hA2 i hin
    have h3 : (i + 1) * w = i * w + w := by ring
    rw [h3]
    generalize i * w = K at h2 ⊢
    omega
  · intro i hi hlast
    rw [hget i hi]
    show min (i * w + w - 1) (t - 1) = t - 1
    rw [hlen] at hlast
    have h4 : t ≤ (i + 1) * w := by
      rw [show i + 1 = n from hlast]
      exact hA3
    have h3 : (i + 1) * w = i * w + w := by ring
    rw [h3] at h4
    generalize i * w = K at h4 ⊢
    omega
  · intro i hi
    have hin : i + 1 < n := by rw [← hlen]; exact hi
    rw [hget i (Nat.lt_of_succ_lt hi)]
    simp only [Segment.byteLen]
    show min (i * w + w - 1) (t - 1) - (i * w) + 1 = w
    have h2 := hA2 i hin
    generalize i * w = K at h2 ⊢
    omega
  · intro i j hi hj hij
    rw [hget i hi, hget j hj]
    show min (i * w + w - 1) (t - 1) < j * w
    have h5 : (i + 1) * w ≤ j * w := Nat.mul_le_mul_right w (by omega)
    have h3 : (i + 1) * w = i * w + w := by ring
    rw [h3] at h5
    generalize i * w = K at h5 ⊢
    generalize j * w = J at h5 ⊢
    omega
  · intro b hb
    have hbw : b / w < n := by
      have hceil : n = (t - 1) / w + 1 := by
        rw [hndef]
        have e : t + w - 1 = (t - 1) + w := by omega
        rw [e, Nat.add_div_right _ hw]
      have hle : b / w ≤ (t - 1) / w := Nat.div_le_div_right (by omega)
      omega
    have hbl : b / w < (createSegments t s m).length := by rw [hlen]; exact hbw
    refine ⟨b / w, hbl, ?_, ?_⟩
    · rw [hget _ hbl]
      show (b / w) * w ≤ b
      exact Nat.div_mul_le_self b w
    · rw [hget _ hbl]
      show b ≤ min ((b / w) * w + w - 1) (t - 1)
      have hdm := Nat.div_add_mod b w
      have hmod : b % w < w := Nat.mod_lt _ hw
      rw [mul_comm w (b / w)] at hdm
      generalize (b / w) * w = K at hdm ⊢
      omega

/-- C1 witness: the layout theorem applied at the concrete input
totalSize 7, segmentSize 3, maxSplits 2. -/
theorem C1_witness :
    createSegments 7 3 2 ≠ [] ∧
    (∀ i (hi : i < (createSegments 7 3 2).length),
      ((createSegments 7 3 2).get ⟨i, hi⟩).index = i ∧
      ((createSegments 7 3 2).get ⟨i, hi⟩).downloadedBytes = 0 ∧
      ((createSegments 7 3 2).get ⟨i, hi⟩).status = SegStatus.pending ∧
      ((createSegments 7 3 2).get ⟨i, hi⟩).startByte ≤
        ((createSegments 7 3 2).get ⟨i, hi⟩).endByte ∧
      ((createSegments 7 3 2).get ⟨i, hi⟩).endByte ≤ 7 - 1) ∧
    (∀ i (hi : i < (createSegments 7 3 2).length), i = 0 →
      ((createSegments 7 3 2).get ⟨i, hi⟩).startByte = 0) ∧
    (∀ i (hi : i + 1 < (createSegments 7 3 2).length),
      ((createSegments 7 3 2).get ⟨i + 1, hi⟩).startByte =
        ((createSegments 7 3 2).get ⟨i, Nat.lt_of_succ_lt hi⟩).endByte + 1) ∧
    (∀ i (hi : i < (createSegments 7 3 2).length), i + 1 = (createSegments 7 3 2).length →
      ((createSegments 7 3 2).get ⟨i, hi⟩).endByte = 7 - 1) ∧
    (∀ i (hi : i + 1 < (createSegments 7 3 2).length),
      ((createSegments 7 3 2).get ⟨i, Nat.lt_of_succ_lt hi⟩).byteLen = segWidthOf 7 3 2) ∧
    (∀ i j (hi : i < (createSegments 7 3 2).length) (hj : j < (createSegments 7 3 2).length),
      i < j →
      ((createSegments 7 3 2).get ⟨i, hi⟩).endByte <
        ((createSegments 7 3 2).get ⟨j, hj⟩).startByte) ∧
    (∀ b, b < 7 → ∃ i, ∃ hi : i < (createSegments 7 3 2).length,
      ((createSegments 7 3 2).get ⟨i, hi⟩).startByte ≤ b ∧
      b ≤ ((createSegments 7 3 2).get ⟨i, hi⟩).endByte) :=
  C1_createSegments_layout 7 3 2 (by decide) (by decide) (by decide)

/-- C4 counterexample: for totalSize 15360, segmentSize 4096 and maxSplits 5
the code produces 3 segments (targetSegments = min(5, ⌊15360/4096⌋) = 3,
width ⌈15360/3⌉ = 5120), not the 4 segments the claim states. -/
theorem C4_counterexample : ¬((createSegments 15360 4096 5).length = 4) := by decide

/-- C4 amended: for totalSize 15360, segmentSize 4096 and maxSplits 5, fresh
segmentation produces exactly 3 segments. -/
theorem C4_segment_count : (createSegments 15360 4096 5).length = 3 := by decide

/-- Arithmetic helper for ceiling-division segment bounds: a segment that is
not past the end satisfies `i * w + w ≤ t + w - 1`. -/
theorem mul_le_of_lt_ceilDiv (t w i : Nat) (hi : i + 1 ≤ (t + w - 1) / w) :
    i * w + w ≤ t + w - 1 := by
  have h1 : (i + 1) * w ≤ ((t + w - 1) / w) * w := Nat.mul_le_mul_right w hi
  have h2 : ((t + w - 1) / w) * w ≤ t + w - 1 := Nat.div_mul_le_self _ _
  have h3 : (i + 1) * w = i * w + w := by ring
  rw [h3] at h1
  exact le_trans h1 h2

/-- C7 counterexample: at totalSize 10, segmentSize 1 and maxSplits 4 the
produced segments are [0,2], [3,5], [6,8], [9,9]; the first has size 3 and the
last size 1, differing by 2 bytes. -/
theorem C7_counterexample :
    ∃ a b, a ∈ createSegments 10 1 4 ∧ b ∈ createSegments 10 1 4 ∧
      a.byteLen = b.byteLen + 2 :=
  ⟨{ index := 0, startByte := 0, endByte := 2, downloadedBytes := 0, status := .pending },
   { index := 3, startByte := 9, endByte := 9, downloadedBytes := 0, status := .pending },
   by decide, by decide, by decide⟩

/-- C7 amended: for every totalSize ≥ 1, segmentSize ≥ 1 and maxSplits ≥ 1,
all segments except the last have the same size (the nominal width), and every
segment's size lies between 1 and that width; only the last segment may be
smaller, possibly by more than one byte. -/
theorem C7_segment_sizes (t s m : Nat) (ht : 1 ≤ t) (hs : 1 ≤ s) (hm : 1 ≤ m) :
    (∀ i (hi : i + 1 < (createSegments t s m).length),
      ((createSegments t s m).get ⟨i, Nat.lt_of_succ_lt hi⟩).byteLen = segWidthOf t s m) ∧
    (∀ j (hj : j < (createSegments t s m).length),
      1 ≤ ((createSegments t s m).get ⟨j, hj⟩).byteLen ∧
      ((createSegments t s m).get ⟨j, hj⟩).byteLen ≤ segWidthOf t s m) := by
  have hw : 0 < segWidthOf t s m := segWidthOf_pos t s m ht
  set w := segWidthOf t s m with hwdef
  have hlen : (createSegments t s m).length = (t + w - 1) / w := createSegments_length t s m ht
  set n := (t + w - 1) / w with hndef
  have hget := createSegments_get t s m ht
  constructor
  · intro i hi
    have hin : i + 1 < n := by rw [← hlen]; exact hi
    rw [hget i (Nat.lt_of_succ_lt hi)]
    simp only [Segment.byteLen]
    show min (i * w + w - 1) (t - 1) - (i * w) + 1 = w
    have h1 : (i + 1) * w + w ≤ t + w - 1 := mul_le_of_lt_ceilDiv t w (i + 1) (by omega)
    have h3 : (i + 1) * w = i * w + w := by ring
    rw [h3] at h1
    generalize i * w = K at h1 ⊢
    omega
  · intro j hj
    have hjn : j < n := by rw [← hlen]; exact hj
    rw [hget j hj]
    simp only [Segment.byteLen]
    constructor
    · show 1 ≤ min (j * w + w - 1) (t - 1) - (j * w) + 1
      omega
    · show min (j * w + w - 1) (t - 1) - (j * w) + 1 ≤ w
      have h1 : j * w + w ≤ t + w - 1 := mul_le_of_lt_ceilDiv t w j (by omega)
      generalize j * w = K at h1 ⊢
      omega

/-- C7 witness: the amended size theorem applied at totalSize 10,
segmentSize 1, maxSplits 4. -/
theorem C7_witness :
    (∀ i (hi : i + 1 < (createSegments 10 1 4).length),
      ((createSegments 10 1 4).get ⟨i, Nat.lt_of_succ_lt hi⟩).byteLen = segWidthOf 10 1 4) ∧
    (∀ j (hj : j < (createSegments 10 1 4).length),
      1 ≤ ((createSegments 10 1 4).get ⟨j, hj⟩).byteLen ∧
      ((createSegments 10 1 4).get ⟨j, hj⟩).byteLen ≤ segWidthOf 10 1 4) :=
  C7_segment_sizes 10 1 4 (by decide) (by decide) (by decide)

/-- Unpacking a successful JS-style array access: the index is non-negative,
in range, and the element is the one at that position. -/
theorem segAt_some {segs : List Segment} {k : Int} {s : Segment}
    (h : segAt segs k = some s) :
    0 ≤ k ∧ ∃ hlt : k.toNat < segs.length, segs.get ⟨k.toNat, hlt⟩ = s := by
  by_cases h0 : 0 ≤ k
  · rw [segAt, if_pos h0] at h
    exact ⟨h0, List.get?_eq_some.mp h⟩
  · rw [segAt, if_neg h0] at h
    simp at h

/-- Replacing one element changes the segment sum by the element delta. -/
theorem sumDlb_set (segs : List Segment) (n : Nat) (x : Segment) (h : n < segs.length) :
    sumDlb (segs.set n x) =
      sumDlb segs - (segs.get ⟨n, h⟩).downloadedBytes + x.downloadedBytes := by
  induction segs generalizing n with
  | nil => exact absurd h (by simp)
  | cons a l ih =>
      cases n with
      | zero =>
          show sumDlb (x :: l) = sumDlb (a :: l) - a.downloadedBytes + x.downloadedBytes
          simp only [sumDlb, List.map_cons, List.sum_cons]
          ring
      | succ n =>
          have hlt : n < l.length := Nat.lt_of_succ_lt_succ h
          show sumDlb (a :: l.set n x) =
            sumDlb (a :: l) - (l.get ⟨n, hlt⟩).downloadedBytes + x.downloadedBytes
          have hih := ih n hlt
          simp only [sumDlb, List.map_cons, List.sum_cons] at hih ⊢
          omega

/-- C2: updateSegmentProgress(i, v) sets segment i's downloadedBytes to
exactly v (it does not add), leaves all other segments unchanged, and changes
the task-wide counter by exactly v minus the segment's previous value;
consequently the equation counter = Σ downloadedBytes, once true, is preserved
by every call to updateSegmentProgress and to markSegmentCompleted. -/
theorem C2_updateSegmentProgress_sets (st : CMState) (i : Int) (seg : Segment) (v : Int)
    (hseg : segAt st.segments i = some seg) :
    segAt (updateSegmentProgress st i v).segments i =
      some { seg with downloadedBytes := v } ∧
    (∀ j : Nat, (j : Int) ≠ i →
      (updateSegmentProgress st i v).segments.get? j = st.segments.get? j) ∧
    (updateSegmentProgress st i v).downloadedBytes =
      st.downloadedBytes + (v - seg.downloadedBytes) ∧
    (st.downloadedBytes = sumDlb st.segments →
      (∀ k u : Int, (updateSegmentProgress st k u).downloadedBytes =
        sumDlb (updateSegmentProgress st k u).segments) ∧
      (∀ k : Int, (markSegmentCompletedState st k).downloadedBytes =
        sumDlb (markSegmentCompletedState st k).segments)) := by
  obtain ⟨hi0, hlt, hgeq⟩ := segAt_some hseg
  refine ⟨?_, ?_, ?_, fun hinv => ⟨?_, ?_⟩⟩
  · simp only [updateSegmentProgress, hseg]
    rw [segAt, if_pos hi0]
    exact List.get?_set_eq_of_lt _ hlt
  · intro j hj
    simp only [updateSegmentProgress, hseg]
    have hne : i.toNat ≠ j := by
      intro hEq
      exact hj (by rw [← hEq]; exact Int.toNat_of_nonneg hi0)
    exact List.get?_set_ne _ _ hne
  · simp only [updateSegmentProgress, hseg]
  · intro k u
    cases hk : segAt st.segments k with
    | none => simp only [updateSegmentProgress, hk]; exact hinv
    | some sk =>
        obtain ⟨hk0, hkl, hkeq⟩ := segAt_some hk
        simp only [updateSegmentProgress, hk]
        rw [sumDlb_set st.segments k.toNat _ hkl, hkeq, hinv]
        show sumDlb st.segments + (u - sk.downloadedBytes) =
          sumDlb st.segments - sk.downloadedBytes + u
        ring
  · intro k
    cases hk : segAt st.segments k with
    | none => simp only [markSegmentCompletedState, hk]; exact hinv
    | some sk =>
        obtain ⟨hk0, hkl, hkeq⟩ := segAt_some hk
        simp only [markSegmentCompletedState, hk]
        rw [sumDlb_set st.segments k.toNat _ hkl, hkeq, hinv]
        show (if sk.fullSize - sk.downloadedBytes ≠ 0 then
            sumDlb st.segments + (sk.fullSize - sk.downloadedBytes)
          else sumDlb st.segments) =
          sumDlb st.segments - sk.downloadedBytes + sk.fullSize
        split_ifs with hd
        · ring
        · omega

/-- C2 witness: the theorem applied to the one-segment sample state at
index 0 with cumulative value 7. -/
theorem C2_witness :
    segAt (updateSegmentProgress stU 0 7).segments 0 =
      some { segU with downloadedBytes := 7 } ∧
    (∀ j : Nat, (j : Int) ≠ 0 →
      (updateSegmentProgress stU 0 7).segments.get? j = stU.segments.get? j) ∧
    (updateSegmentProgress stU 0 7).downloadedBytes =
      stU.downloadedBytes + (7 - segU.downloadedBytes) ∧
    (stU.downloadedBytes = sumDlb stU.segments →
      (∀ k u : Int, (updateSegmentProgress stU k u).downloadedBytes =
        sumDlb (updateSegmentProgress stU k u).segments) ∧
      (∀ k : Int, (markSegmentCompletedState stU k).downloadedBytes =
        sumDlb (markSegmentCompletedState stU k).segments)) :=
  C2_updateSegmentProgress_sets stU 0 segU 7 (by decide)

/-- A contiguous tiling of `[start, total - 1]` has signed widths summing to
`total - start`. -/
theorem tilesFrom_sum (segs : List Segment) :
    ∀ start total, tilesFrom segs start total = true →
      (segs.map Segment.fullSize).sum = (total : Int) - (start : Int) := by
  induction segs with
  | nil =>
      intro start total h
      simp only [tilesFrom, beq_iff_eq] at h
      subst h
      simp
  | cons a l ih =>
      intro start total h
      simp only [tilesFrom, Bool.and_eq_true, beq_iff_eq, decide_eq_true_eq] at h
      obtain ⟨⟨⟨ha, h1⟩, h2⟩, h3⟩ := h
      have hrec := ih (a.endByte + 1) total h3
      simp only [List.map_cons, List.sum_cons, hrec, Segment.fullSize]
      omega

/-- C3: saving a state whose segments partition `[0, totalSize − 1]` and whose
per-segment counters lie in `[0, fullSize]`, then loading the saved record,
reproduces the segment list on (index, startByte, endByte, downloadedBytes)
with each status normalized to completed exactly when downloadedBytes equals
the full size and to pending otherwise (in particular every saved
`downloading` becomes `pending`). -/
theorem C3_save_load_roundtrip (cfg : CMConfig) (st : CMState) (now : String)
    (hpart : tilesFrom st.segments 0 cfg.totalSize = true)
    (hne : st.segments ≠ [])
    (hdlb : ∀ s ∈ st.segments, 0 ≤ s.downloadedBytes ∧ s.downloadedBytes ≤ s.fullSize) :
    loadResumeData cfg (saveProgressRecord cfg st now) =
      .ok { segments := st.segments.map (fun s =>
              { s with status := if s.downloadedBytes = s.fullSize
                  then SegStatus.completed else SegStatus.pending })
            downloadedBytes := sumDlb st.segments } := by
  have hmapeq : st.segments.map (fun segment =>
      { segment with
          downloadedBytes := max 0 (min segment.downloadedBytes segment.fullSize)
          status :=
            if segment.fullSize ≤ max 0 (min segment.downloadedBytes segment.fullSize)
            then SegStatus.completed else SegStatus.pending }) =
      st.segments.map (fun s =>
        { s with status := if s.downloadedBytes = s.fullSize
            then SegStatus.completed else SegStatus.pending }) := by
    apply List.map_congr_left
    intro s hs
    obtain ⟨hb0, hb1⟩ := hdlb s hs
    have hnorm : max 0 (min s.downloadedBytes s.fullSize) = s.downloadedBytes := by omega
    rw [hnorm]
    have hcond : (s.fullSize ≤ s.downloadedBytes) ↔ (s.downloadedBytes = s.fullSize) := by
      omega
    by_cases hEq : s.downloadedBytes = s.fullSize
    · rw [if_pos (hcond.mpr hEq), if_pos hEq]
    · rw [if_neg (fun hc => hEq (hcond.mp hc)), if_neg hEq]
  have hsum : sumDlb (st.segments.map (fun s =>
      { s with status := if s.downloadedBytes = s.fullSize
          then SegStatus.completed else SegStatus.pending })) = sumDlb st.segments := by
    simp only [sumDlb, List.map_map]
    exact congrArg List.sum (List.map_congr_left (fun s _ => rfl))
  have hspan : (st.segments.map Segment.fullSize).sum = (cfg.totalSize : Int) := by
    have h := tilesFrom_sum st.segments 0 cfg.totalSize hpart
    simpa using h
  have hnonempty : ¬((saveProgressRecord cfg st now).segments.isEmpty = true) := by
    simpa [saveProgressRecord, List.isEmpty_iff] using hne
  rw [loadResumeData, if_neg hnonempty]
  simp only [saveProgressRecord]
  rw [if_pos hspan]
  rw [hmapeq, hsum]

/-- C3 witness: the round-trip theorem applied to the two-segment sample
state `stR` under configuration `cfgR`. -/
theorem C3_witness :
    loadResumeData cfgR (saveProgressRecord cfgR stR ("t0")) =
      .ok { segments := stR.segments.map (fun s =>
              { s with status := if s.downloadedBytes = s.fullSize
                  then SegStatus.completed else SegStatus.pending })
            downloadedBytes := sumDlb stR.segments } :=
  C3_save_load_roundtrip cfgR stR ("t0") (by decide) (by decide) (by decide)

/-- The resume loader never raises the missing-control-file error: that throw
site lives in `initialize` before the writer is opened. -/
theorem loadResumeData_ne_required (cfg : CMConfig) (data : ControlFileData) :
    loadResumeData cfg data ≠ .error .resumeRequired := by
  rw [loadResumeData]
  by_cases h1 : data.segments.isEmpty = true
  · rw [if_pos h1]
    by_cases h2 : cfg.alwaysResume = true
    · rw [if_pos h2]; simp
    · rw [if_neg h2]; simp
  · rw [if_neg h1]
    by_cases h3 : (data.segments.map Segment.fullSize).sum = (cfg.totalSize : Int)
    · rw [if_pos h3]; simp
    · rw [if_neg h3]
      by_cases h2 : cfg.alwaysResume = true
      · rw [if_pos h2]; simp
      · rw [if_neg h2]; simp

/-- C5: initialization fails with the ResumeRequired error exactly when
resume is enabled, alwaysResume is enabled, the output file exists with
non-zero size, and no control file exists; and whenever it fails this way the
File Writer is never opened (so nothing is written to the output file). -/
theorem C5_resume_required_iff (cfg : CMConfig) (env : InitEnv) :
    ((cmInit cfg env).2 = .error .resumeRequired ↔
      cfg.resumeDownloads = true ∧ cfg.alwaysResume = true ∧ env.fileExists = true ∧
        0 < env.fileSize ∧ env.controlExists = false) ∧
    ((cmInit cfg env).2 = .error .resumeRequired →
      Effect.openWriter ∉ (cmInit cfg env).1) := by
  have hRtoC : (cfg.resumeDownloads = true ∧ cfg.alwaysResume = true ∧ env.fileExists = true ∧
      0 < env.fileSize ∧ env.controlExists = false) →
      (cfg.resumeDownloads = true ∧ cfg.alwaysResume = true ∧ env.fileExists = true ∧
        0 < env.fileSize ∧
        ¬((if cfg.resumeDownloads then env.controlExists else false) = true)) := by
    rintro ⟨h1, h2, h3, h4, h5⟩
    refine ⟨h1, h2, h3, h4, ?_⟩
    rw [if_pos h1, h5]
    simp
  have hCtoR : (cfg.resumeDownloads = true ∧ cfg.alwaysResume = true ∧ env.fileExists = true ∧
      0 < env.fileSize ∧
      ¬((if cfg.resumeDownloads then env.controlExists else false) = true)) →
      (cfg.resumeDownloads = true ∧ cfg.alwaysResume = true ∧ env.fileExists = true ∧
        0 < env.fileSize ∧ env.controlExists = false) := by
    rintro ⟨h1, h2, h3, h4, h5⟩
    refine ⟨h1, h2, h3, h4, ?_⟩
    rw [if_pos h1] at h5
    simpa using h5
  have hmain : ((cfg.resumeDownloads = true ∧ cfg.alwaysResume = true ∧ env.fileExists = true ∧
      0 < env.fileSize ∧
      ¬((if cfg.resumeDownloads then env.controlExists else false) = true)) ∧
      cmInit cfg env = ([Effect.mkdirOut], .error .resumeRequired)) ∨
      (¬(cfg.resumeDownloads = true ∧ cfg.alwaysResume = true ∧ env.fileExists = true ∧
        0 < env.fileSize ∧
        ¬((if cfg.resumeDownloads then env.controlExists else false) = true)) ∧
      (cmInit cfg env).2 ≠ .error .resumeRequired) := by
    by_cases hC : (cfg.resumeDownloads = true ∧ cfg.alwaysResume = true ∧
        env.fileExists = true ∧ 0 < env.fileSize ∧
        ¬((if cfg.resumeDownloads then env.controlExists else false) = true))
    · left
      refine ⟨hC, ?_⟩
      rw [cmInit, if_pos hC]
    · right
      refine ⟨hC, ?_⟩
      rw [cmInit, if_neg hC]
      cases hopt : (if cfg.resumeDownloads = true then env.controlLoad else none) with
      | none => split_ifs <;> simp
      | some data =>
          cases hload : loadResumeData cfg data with
          | error e =>
              have hne := loadResumeData_ne_required cfg data
              rw [hload] at hne
              simp only [hload]
              simpa using hne
          | ok st =>
              simp only [hload]
              split_ifs <;> simp
  rcases hmain with ⟨hC, hEq⟩ | ⟨hC, hNe⟩
  · constructor
    · rw [hEq]
      exact ⟨fun _ => hCtoR hC, fun _ => rfl⟩
    · intro _
      rw [hEq]
      simp
  · constructor
    · constructor
      · intro h
        exact absurd h hNe
      · intro hR
        exact absurd (hRtoC hR) hC
    · intro h
      exact absurd h hNe

/-- C5 witness: the strict-resume scenario (output file of 100 bytes,
no sidecar, alwaysResume on) rejects with ResumeRequired and the writer is
never opened. -/
theorem C5_witness :
    (cmInit cfgS envS).2 = .error .resumeRequired ∧
    Effect.openWriter ∉ (cmInit cfgS envS).1 := by
  have h := C5_resume_required_iff cfgS envS
  have h2 : (cmInit cfgS envS).2 = .error .resumeRequired :=
    h.1.mpr ⟨rfl, rfl, rfl, by decide, rfl⟩
  exact ⟨h2, h.2 h2⟩

/-- C6 counterexample: a control file that parses with version "2.0" and a
valid non-empty segment list is adopted as-is (normalized), not discarded:
initialization returns the saved segment with its 4 downloaded bytes instead
of the fresh two-segment layout `createSegments` would build. -/
theorem C6_counterexample :
    recV.version ≠ "1.0" ∧
    (cmInit cfgV envV).2 =
      .ok { segments := [{ index := 0, startByte := 0, endByte := 9, downloadedBytes := 4,
                           status := SegStatus.pending }]
            downloadedBytes := 4 } ∧
    freshState cfgV ≠
      { segments := [{ index := 0, startByte := 0, endByte := 9, downloadedBytes := 4,
                       status := SegStatus.pending }]
        downloadedBytes := 4 } :=
  ⟨by decide, rfl, by decide⟩

/-- C6 amended: the reader performs no version check at all — initialization
gives the same result whatever string the record's version field holds, so a
version other than "1.0" is treated exactly like "1.0" (its segments are
adopted when they are otherwise valid), not as an absent record. -/
theorem C6_version_ignored (cfg : CMConfig) (env : InitEnv) (data : ControlFileData)
    (v : String) :
    cmInit cfg { env with controlLoad := some { data with version := v } } =
      cmInit cfg { env with controlLoad := some data } := by
  cases hr : cfg.resumeDownloads <;> simp [cmInit, loadResumeData, hr]

/-- C8: cleanup always closes the File Writer, and it deletes the control
file if and only if success is true and resumeDownloads is enabled; after a
successful resumed run the sidecar is gone, after a failed or cancelled run it
is left in place. -/
theorem C8_cleanup_closes_and_deletes (resume success : Bool) (w : FsWorld) :
    (cleanup resume success w).1.writerOpen = false ∧
    ((cleanup resume success w).2 = true ↔ success = true ∧ resume = true) ∧
    (success = true ∧ resume = true → (cleanup resume success w).1.controlExists = false) ∧
    (success = false → (cleanup resume success w).1.controlExists = w.controlExists) := by
  cases resume <;> cases success <;> simp [cleanup]

/-- C9: the progress snapshot clamps downloadedBytes to totalSize, computes
percent as 100·downloaded/total clamped to at most 100 (0 when totalSize is
0), never reports more than 100 percent, and reports eta as remaining/speed
when speed is positive and 0 otherwise. -/
theorem C9_getProgress_clamps (totalSize downloadedBytes : Int) (elapsedSeconds : ℚ) :
    (getProgress totalSize downloadedBytes elapsedSeconds).downloadedBytes =
      min downloadedBytes totalSize ∧
    (getProgress totalSize downloadedBytes elapsedSeconds).percent =
      min (if 0 < totalSize then
        100 * ((min downloadedBytes totalSize : Int) : ℚ) / (totalSize : ℚ) else 0) 100 ∧
    (getProgress totalSize downloadedBytes elapsedSeconds).percent ≤ 100 ∧
    (getProgress totalSize downloadedBytes elapsedSeconds).eta =
      (if 0 < (getProgress totalSize downloadedBytes elapsedSeconds).speed then
        ((max 0 (totalSize - min downloadedBytes totalSize) : Int) : ℚ) /
          (getProgress totalSize downloadedBytes elapsedSeconds).speed else 0) := by
  refine ⟨rfl, ?_, ?_, rfl⟩
  · simp only [getProgress]
    congr 1
    split_ifs with ht
    · ring
    · rfl
  · simp only [getProgress]
    exact min_le_right _ _

/-- C10: for an index with no segment (negative or at least the length), the
mark and update operations return the state unchanged, and markSegmentCompleted
additionally performs a saveProgress of the unchanged record. -/
theorem C10_out_of_range_noop (cfg : CMConfig) (st : CMState) (now : String) (i v : Int)
    (h : i < 0 ∨ (st.segments.length : Int) ≤ i) :
    markSegmentDownloading st i = st ∧
    markSegmentFailed st i = st ∧
    updateSegmentProgress st i v = st ∧
    markSegmentCompleted cfg st i now = (st, saveProgress cfg st now) := by
  have hnone : segAt st.segments i = none := by
    rcases h with h | h
    · rw [segAt, if_neg (by omega)]
    · rw [segAt, if_pos (by omega)]
      exact List.get?_eq_none.mpr (by omega)
  refine ⟨?_, ?_, ?_, ?_⟩
  · simp only [markSegmentDownloading, hnone]
  · simp only [markSegmentFailed, hnone]
  · simp only [updateSegmentProgress, hnone]
  · simp only [markSegmentCompleted, markSegmentCompletedState, hnone]

/-- C10 witness: the out-of-range theorem applied to the one-segment sample
state at index 5. -/
theorem C10_witness :
    markSegmentDownloading stO 5 = stO ∧
    markSegmentFailed stO 5 = stO ∧
    updateSegmentProgress stO 5 3 = stO ∧
    markSegmentCompleted cfgO stO 5 ("t1") = (stO, saveProgress cfgO stO ("t1")) :=
  C10_out_of_range_noop cfgO stO ("t1") 5 3 (by decide)

end Paradl
